import Mathlib

/-!
Verification of the beadui issue-tracker engine (src/main.rs):
the snapshot cache, the aggregation step, the dependents-graph builder,
the readiness computation, the query pipeline (text filter, column
exclusion filters, sorting) and the edit/save pipeline.

The Rust source is shallowly embedded: the external `bd` subprocess
(the issue-store gateway) is a function parameter, `HashMap`s are
association lists, `PathBuf` is a list of path components, and the
fetch-counting instrumentation on `SnapshotCache.get_issue` records how
many underlying gateway fetches one call performs.
-/

/-- A filesystem path, as its list of components; `file_name()` is the last
component. -/
abbrev DirPath := List String

/-- The `Issue` record of src/main.rs.  `dependencies` recursively embeds
(possibly partial) issues, mirroring `dependencies: Vec<Issue>`. -/
inductive Issue : Type where
  | mk
      (id : String) (title : String) (description : String) (status : String)
      (priority : Int) (issue_type : String)
      (assignee : Option String) (notes : Option String)
      (created_at : String) (updated_at : String)
      (dependencies : List Issue) (source_directory : String) : Issue

def Issue.id : Issue → String
  | .mk v _ _ _ _ _ _ _ _ _ _ _ => v

def Issue.title : Issue → String
  | .mk _ v _ _ _ _ _ _ _ _ _ _ => v

def Issue.description : Issue → String
  | .mk _ _ v _ _ _ _ _ _ _ _ _ => v

def Issue.status : Issue → String
  | .mk _ _ _ v _ _ _ _ _ _ _ _ => v

def Issue.priority : Issue → Int
  | .mk _ _ _ _ v _ _ _ _ _ _ _ => v

def Issue.issue_type : Issue → String
  | .mk _ _ _ _ _ v _ _ _ _ _ _ => v

def Issue.assignee : Issue → Option String
  | .mk _ _ _ _ _ _ v _ _ _ _ _ => v

def Issue.notes : Issue → Option String
  | .mk _ _ _ _ _ _ _ v _ _ _ _ => v

def Issue.created_at : Issue → String
  | .mk _ _ _ _ _ _ _ _ v _ _ _ => v

def Issue.updated_at : Issue → String
  | .mk _ _ _ _ _ _ _ _ _ v _ _ => v

def Issue.dependencies : Issue → List Issue
  | .mk _ _ _ _ _ _ _ _ _ _ v _ => v

def Issue.source_directory : Issue → String
  | .mk _ _ _ _ _ _ _ _ _ _ _ v => v

/-- `issue.source_directory = s;` — the stamping assignment used by
`BdClient::list_issues`. -/
def Issue.withSourceDirectory : Issue → String → Issue
  | .mk a b c d e f g h i j k _, s => .mk a b c d e f g h i j k s

/-- Lookup in an association list (the embedding of `HashMap::get`). -/
def lookupA {α : Type} : List (String × α) → String → Option α
  | [], _ => none
  | (k, v) :: rest, key => if k = key then some v else lookupA rest key

/-- Insert/overwrite in an association list (the embedding of
`HashMap::insert`). -/
def insertA {α : Type} : List (String × α) → String → α → List (String × α)
  | [], key, v => [(key, v)]
  | (k, w) :: rest, key, v =>
    if k = key then (key, v) :: rest else (k, w) :: insertA rest key v

/-- `map.entry(key).or_insert_with(Vec::new).push(value)` on a map from keys
to lists. -/
def appendA : List (String × List String) → String → String → List (String × List String)
  | [], key, v => [(key, [v])]
  | (k, vs) :: rest, key, v =>
    if k = key then (k, vs ++ [v]) :: rest else (k, vs) :: appendA rest key v

theorem lookupA_insertA_self {α : Type} (l : List (String × α)) (k : String) (v : α) :
    lookupA (insertA l k v) k = some v := by
  induction l with
  | nil => simp [insertA, lookupA]
  | cons head rest ih =>
    obtain ⟨k2, w⟩ := head
    by_cases h : k2 = k
    · simp [insertA, h, lookupA]
    · simp [insertA, h, lookupA, ih]

/-- The snapshot cache of src/main.rs: memoized full issue details plus the
registered issue sources (`issue_id -> (source_directory, db_path)`). -/
structure SnapshotCache where
  get_issue_cache : List (String × Issue)
  issue_sources : List (String × (String × Option DirPath))

def SnapshotCache.new : SnapshotCache := ⟨[], []⟩

/-- `SnapshotCache::clear` discards both maps. -/
def SnapshotCache.clear (_c : SnapshotCache) : SnapshotCache := ⟨[], []⟩

/-- `SnapshotCache::register_issue_source`. -/
def SnapshotCache.register_issue_source (c : SnapshotCache) (issue_id : String)
    (source_directory : String) (db_path : Option DirPath) : SnapshotCache :=
  { c with issue_sources := insertA c.issue_sources issue_id (source_directory, db_path) }

/-- The external gateway behind `BdClient::get_issue_uncached`: fetch one
issue's full detail, given the id and the optional db-path hint. -/
abbrev GetGateway := String → Option DirPath → Except String Issue

/-- The db-path hint `get_issue` computes:
`self.issue_sources.get(id).and_then(|(_, path)| path.clone())`. -/
def SnapshotCache.dbPathOf (c : SnapshotCache) (id : String) : Option DirPath :=
  (lookupA c.issue_sources id).bind (fun s => s.2)

/-- `SnapshotCache::get_issue`, instrumented with the number of underlying
gateway fetches the call performs (0 on a cache hit, 1 otherwise).  On a
miss the fetched issue is stored only when the fetch succeeds. -/
def SnapshotCache.get_issue (c : SnapshotCache) (gw : GetGateway) (id : String) :
    Except String Issue × SnapshotCache × Nat :=
  match lookupA c.get_issue_cache id with
  | some cached_issue => (Except.ok cached_issue, c, 0)
  | none =>
    match gw id (c.dbPathOf id) with
    | Except.ok issue =>
      (Except.ok issue,
        { get_issue_cache := insertA c.get_issue_cache id issue,
          issue_sources := c.issue_sources }, 1)
    | Except.error e => (Except.error e, c, 1)

/-- C1: within one snapshot (no intervening `clear()`), a cache hit performs
no gateway fetch and returns the memoized issue unchanged; a miss whose
fetch succeeds performs exactly one fetch, memoizes the returned issue, and
every subsequent `get_issue` for that id returns it with zero fetches; a
miss whose fetch fails performs one fetch, stores nothing, and the next
`get_issue` for that id performs a new fetch. -/
theorem get_issue_memoizes (gw : GetGateway) (c : SnapshotCache) (id : String) :
    (∀ issue, lookupA c.get_issue_cache id = some issue →
      c.get_issue gw id = (Except.ok issue, c, 0))
    ∧ (∀ issue, lookupA c.get_issue_cache id = none →
        gw id (c.dbPathOf id) = Except.ok issue →
        c.get_issue gw id =
          (Except.ok issue,
            { get_issue_cache := insertA c.get_issue_cache id issue,
              issue_sources := c.issue_sources }, 1)
        ∧ ((c.get_issue gw id).2.1.get_issue gw id =
            (Except.ok issue, (c.get_issue gw id).2.1, 0)))
    ∧ (∀ e, lookupA c.get_issue_cache id = none →
        gw id (c.dbPathOf id) = Except.error e →
        c.get_issue gw id = (Except.error e, c, 1)
        ∧ ((c.get_issue gw id).2.1.get_issue gw id = (Except.error e, c, 1))) := by
  refine ⟨?_, ?_, ?_⟩
  · intro issue h
    simp [SnapshotCache.get_issue, h]
  · intro issue hmiss hok
    have hcall : c.get_issue gw id =
        (Except.ok issue,
          { get_issue_cache := insertA c.get_issue_cache id issue,
            issue_sources := c.issue_sources }, 1) := by
      simp [SnapshotCache.get_issue, hmiss, hok]
    refine ⟨hcall, ?_⟩
    rw [hcall]
    simp [SnapshotCache.get_issue, lookupA_insertA_self]
  · intro e hmiss herr
    have hcall : c.get_issue gw id = (Except.error e, c, 1) := by
      simp [SnapshotCache.get_issue, hmiss, herr]
    refine ⟨hcall, ?_⟩
    rw [hcall]
    simp [SnapshotCache.get_issue, hmiss, herr]

theorem lookupA_insertA {α : Type} (l : List (String × α)) (k k2 : String) (v : α) :
    lookupA (insertA l k v) k2 = if k = k2 then some v else lookupA l k2 := by
  induction l with
  | nil => simp [insertA, lookupA]
  | cons head rest ih =>
    obtain ⟨k3, w⟩ := head
    by_cases h : k3 = k
    · subst h
      by_cases h2 : k3 = k2 <;> simp [insertA, lookupA, h2]
    · by_cases h2 : k3 = k2
      · have hne : ¬k = k2 := fun hh => h (h2.trans hh.symm)
        have hne2 : ¬k2 = k := fun hh => h (h2.trans hh)
        simp [insertA, lookupA, h, h2, hne, hne2]
      · simp [insertA, lookupA, h, h2, ih]

/-- The dependents map of src/main.rs: `issue_id -> Vec<issue_id>` of the
issues that depend on it. -/
abbrev DepMap := List (String × List String)

/-- `dependents_map.get(id)` read as a list (empty when the key is absent),
matching how `get_dependents_count` and the detail view consume the map. -/
def lookupD (m : DepMap) (k : String) : List String :=
  (lookupA m k).getD []

/-- The loop of `BeadUiApp::compute_dependents_map`: for each issue whose
full detail the snapshot cache yields, append the issue's id to the
dependents list of each of its blockers; fetch failures contribute
nothing.  The snapshot cache is threaded through the iteration exactly as
`self.snapshot_cache.get_issue` mutates it. -/
def dependentsGo (gw : GetGateway) : SnapshotCache → DepMap → List Issue → SnapshotCache × DepMap
  | c, m, [] => (c, m)
  | c, m, issue :: rest =>
    let r := c.get_issue gw issue.id
    match r.1 with
    | Except.ok full_issue =>
      dependentsGo gw r.2.1
        (full_issue.dependencies.foldl (fun acc dep => appendA acc dep.id issue.id) m) rest
    | Except.error _ => dependentsGo gw r.2.1 m rest

/-- `BeadUiApp::compute_dependents_map`: the map is rebuilt starting from the
empty map (never merged into the previous one). -/
def compute_dependents_map (gw : GetGateway) (c : SnapshotCache) (issues : List Issue) :
    SnapshotCache × DepMap :=
  dependentsGo gw c [] issues

theorem lookupD_appendA (m : DepMap) (k v a b : String) :
    b ∈ lookupD (appendA m k v) a ↔ b ∈ lookupD m a ∨ (a = k ∧ b = v) := by
  induction m with
  | nil =>
    by_cases h : k = a
    · subst h
      simp [appendA, lookupD, lookupA]
    · simp only [appendA, lookupD, lookupA, if_neg h, Option.getD_none, List.not_mem_nil,
        false_or, false_iff, not_and]
      intro hak
      exact absurd hak.symm h
  | cons head rest ih =>
    obtain ⟨k2, vs⟩ := head
    by_cases h : k2 = k
    · subst h
      by_cases h2 : k2 = a
      · subst h2
        simp [appendA, lookupD, lookupA]
      · simp only [appendA, if_pos rfl, lookupD, lookupA, if_neg h2]
        constructor
        · exact fun hb => Or.inl hb
        · rintro (hb | ⟨hak, _⟩)
          · exact hb
          · exact absurd hak.symm h2
    · by_cases h2 : k2 = a
      · subst h2
        simp only [appendA, if_neg h, lookupD, lookupA, if_pos rfl, Option.getD_some]
        constructor
        · exact fun hb => Or.inl hb
        · rintro (hb | ⟨hak, _⟩)
          · exact hb
          · exact absurd hak h
      · simp only [appendA, if_neg h, lookupD, lookupA, if_neg h2]
        exact ih

theorem lookupD_depsFold (deps : List Issue) (m : DepMap) (w a b : String) :
    b ∈ lookupD (deps.foldl (fun acc dep => appendA acc dep.id w) m) a ↔
      b ∈ lookupD m a ∨ (b = w ∧ a ∈ deps.map Issue.id) := by
  induction deps generalizing m with
  | nil => simp
  | cons dep rest ih =>
    simp only [List.foldl_cons, List.map_cons, List.mem_cons]
    rw [ih, lookupD_appendA]
    tauto

/-- Every memoized issue agrees with what the gateway returns for its id:
the invariant the snapshot cache maintains while the gateway is
deterministic within one snapshot. -/
def cacheConsistent (gw : GetGateway) (c : SnapshotCache) : Prop :=
  ∀ id issue, lookupA c.get_issue_cache id = some issue →
    gw id (c.dbPathOf id) = Except.ok issue

theorem get_issue_fst_of_consistent {gw : GetGateway} {c : SnapshotCache}
    (h : cacheConsistent gw c) (id : String) :
    (c.get_issue gw id).1 = gw id (c.dbPathOf id) := by
  unfold SnapshotCache.get_issue
  cases hl : lookupA c.get_issue_cache id with
  | some cached => simp [(h id cached hl).symm]
  | none =>
    cases hg : gw id (c.dbPathOf id) <;> simp

theorem get_issue_issue_sources (gw : GetGateway) (c : SnapshotCache) (id : String) :
    (c.get_issue gw id).2.1.issue_sources = c.issue_sources := by
  unfold SnapshotCache.get_issue
  cases hl : lookupA c.get_issue_cache id with
  | some cached => simp
  | none => cases hg : gw id (c.dbPathOf id) <;> simp

theorem dbPathOf_eq_of_sources_eq {c c2 : SnapshotCache}
    (h : c2.issue_sources = c.issue_sources) (k : String) :
    c2.dbPathOf k = c.dbPathOf k := by
  unfold SnapshotCache.dbPathOf
  rw [h]

theorem get_issue_preserves_consistent {gw : GetGateway} {c : SnapshotCache}
    (h : cacheConsistent gw c) (id : String) :
    cacheConsistent gw (c.get_issue gw id).2.1 := by
  intro k v hk
  have hsrc := get_issue_issue_sources gw c id
  rw [dbPathOf_eq_of_sources_eq hsrc]
  cases hl : lookupA c.get_issue_cache id with
  | some cached =>
    have hres : (c.get_issue gw id).2.1 = c := by
      simp [SnapshotCache.get_issue, hl]
    rw [hres] at hk
    exact h k v hk
  | none =>
    cases hg : gw id (c.dbPathOf id) with
    | ok issue =>
      have hres : (c.get_issue gw id).2.1 =
          { get_issue_cache := insertA c.get_issue_cache id issue,
            issue_sources := c.issue_sources } := by
        simp [SnapshotCache.get_issue, hl, hg]
      rw [hres] at hk
      simp only at hk
      rw [lookupA_insertA] at hk
      by_cases hik : id = k
      · rw [if_pos hik] at hk
        injection hk with hv
        rw [← hik, ← hv]
        exact hg
      · rw [if_neg hik] at hk
        exact h k v hk
    | error e =>
      have hres : (c.get_issue gw id).2.1 = c := by
        simp [SnapshotCache.get_issue, hl, hg]
      rw [hres] at hk
      exact h k v hk

theorem dependentsGo_mem (gw : GetGateway) (issues : List Issue) :
    ∀ (c : SnapshotCache) (m : DepMap), cacheConsistent gw c → ∀ a b,
      (b ∈ lookupD (dependentsGo gw c m issues).2 a ↔
        b ∈ lookupD m a ∨ ∃ issue, issue ∈ issues ∧ issue.id = b ∧
          ∃ full, gw issue.id (c.dbPathOf issue.id) = Except.ok full ∧
            a ∈ full.dependencies.map Issue.id) := by
  induction issues with
  | nil =>
    intro c m hcon a b
    simp [dependentsGo]
  | cons issue rest ih =>
    intro c m hcon a b
    have hfst := get_issue_fst_of_consistent hcon issue.id
    have hsrc := get_issue_issue_sources gw c issue.id
    have hcon2 := get_issue_preserves_consistent hcon issue.id
    have hdb : ∀ k, ((c.get_issue gw issue.id).2.1).dbPathOf k = c.dbPathOf k :=
      dbPathOf_eq_of_sources_eq hsrc
    cases hg : gw issue.id (c.dbPathOf issue.id) with
    | ok full =>
      have hr1 : (c.get_issue gw issue.id).1 = Except.ok full := by rw [hfst, hg]
      have hstep : dependentsGo gw c m (issue :: rest) =
          dependentsGo gw (c.get_issue gw issue.id).2.1
            (full.dependencies.foldl (fun acc dep => appendA acc dep.id issue.id) m) rest := by
        simp [dependentsGo, hr1]
      rw [hstep, ih _ _ hcon2 a b, lookupD_depsFold]
      simp only [hdb, List.mem_cons]
      constructor
      · rintro ((hm | ⟨hb, hdep⟩) | ⟨i, hi, hid, full2, hgf, hdep⟩)
        · exact Or.inl hm
        · exact Or.inr ⟨issue, Or.inl rfl, hb.symm, full, hg, hdep⟩
        · exact Or.inr ⟨i, Or.inr hi, hid, full2, hgf, hdep⟩
      · rintro (hm | ⟨i, (rfl | hi), hid, full2, hgf, hdep⟩)
        · exact Or.inl (Or.inl hm)
        · rw [hg] at hgf
          injection hgf with hfull
          subst hfull
          exact Or.inl (Or.inr ⟨hid.symm, hdep⟩)
        · exact Or.inr ⟨i, hi, hid, full2, hgf, hdep⟩
    | error e =>
      have hr1 : (c.get_issue gw issue.id).1 = Except.error e := by rw [hfst, hg]
      have hstep : dependentsGo gw c m (issue :: rest) =
          dependentsGo gw (c.get_issue gw issue.id).2.1 m rest := by
        simp [dependentsGo, hr1]
      rw [hstep, ih _ _ hcon2 a b]
      simp only [hdb, List.mem_cons]
      constructor
      · rintro (hm | ⟨i, hi, hid, full2, hgf, hdep⟩)
        · exact Or.inl hm
        · exact Or.inr ⟨i, Or.inr hi, hid, full2, hgf, hdep⟩
      · rintro (hm | ⟨i, (rfl | hi), hid, full2, hgf, hdep⟩)
        · exact Or.inl hm
        · rw [hg] at hgf
          exact absurd hgf (by simp)
        · exact Or.inr ⟨i, hi, hid, full2, hgf, hdep⟩

theorem cacheConsistent_of_empty {gw : GetGateway} {c : SnapshotCache}
    (h : c.get_issue_cache = []) : cacheConsistent gw c := by
  intro id issue hk
  rw [h] at hk
  simp [lookupA] at hk

/-- C2: after `compute_dependents_map`, the dependents map is the exact
reverse of the aggregated forward-dependency relation.  Starting from a
cleared cache (as `refresh` guarantees), for issues A and B of the
aggregated list whose full-detail fetch through the snapshot cache
succeeds, B's id is in the dependents list keyed by A's id iff B's
dependency list contains a blocker record whose id equals A's id; and an
issue whose fetch fails contributes no edge to any dependents list.  The
map is built starting from the empty map, never merged into the previous
one. -/
theorem compute_dependents_map_reverse (gw : GetGateway) (c0 : SnapshotCache)
    (issues : List Issue) (A B fullA fullB : Issue)
    (hempty : c0.get_issue_cache = [])
    (hA : A ∈ issues) (hB : B ∈ issues)
    (hfA : gw A.id (c0.dbPathOf A.id) = Except.ok fullA)
    (hfB : gw B.id (c0.dbPathOf B.id) = Except.ok fullB) :
    (B.id ∈ lookupD (compute_dependents_map gw c0 issues).2 A.id ↔
      A.id ∈ fullB.dependencies.map Issue.id)
    ∧ (∀ C e, C ∈ issues → gw C.id (c0.dbPathOf C.id) = Except.error e →
        ∀ a, C.id ∉ lookupD (compute_dependents_map gw c0 issues).2 a) := by
  have hcon : cacheConsistent gw c0 := cacheConsistent_of_empty hempty
  have hmem := dependentsGo_mem gw issues c0 [] hcon
  constructor
  · rw [compute_dependents_map, hmem A.id B.id]
    simp only [lookupD, lookupA, Option.getD_none, List.not_mem_nil, false_or]
    constructor
    · rintro ⟨i, hi, hid, full2, hgf, hdep⟩
      rw [hid] at hgf
      rw [hfB] at hgf
      injection hgf with hfull
      subst hfull
      exact hdep
    · intro hdep
      exact ⟨B, hB, rfl, fullB, hfB, hdep⟩
  · intro C e hC hgC a hmemC
    rw [compute_dependents_map, hmem a C.id] at hmemC
    simp only [lookupD, lookupA, Option.getD_none, List.not_mem_nil, false_or] at hmemC
    obtain ⟨i, hi, hid, full2, hgf, hdep⟩ := hmemC
    rw [hid, hgC] at hgf
    exact absurd hgf (by simp)

/-- Concrete fixture: the partial blocker record embedded in wBFull's
dependency list. -/
def wRefA : Issue := Issue.mk "a" "Blocker A" "" "open" 1 "task" none none "" "" [] ""

def wA : Issue := Issue.mk "a" "Issue A" "" "open" 1 "task" none none "" "" [] "dir"

def wB : Issue := Issue.mk "b" "Issue B" "" "open" 2 "task" none none "" "" [] "dir"

def wC : Issue := Issue.mk "c" "Issue C" "" "open" 3 "task" none none "" "" [] "dir"

def wAFull : Issue := Issue.mk "a" "Issue A" "" "open" 1 "task" none none "" "" [] ""

def wBFull : Issue := Issue.mk "b" "Issue B" "" "open" 2 "task" none none "" "" [wRefA] ""

def wGw : GetGateway := fun id _ =>
  if id = "a" then Except.ok wAFull
  else if id = "b" then Except.ok wBFull
  else Except.error "bd failed"

def wIssues : List Issue := [wA, wB, wC]

theorem compute_dependents_map_reverse_witness :
    (("b" : String) ∈ lookupD (compute_dependents_map wGw SnapshotCache.new wIssues).2 "a" ↔
      ("a" : String) ∈ wBFull.dependencies.map Issue.id) :=
  (compute_dependents_map_reverse wGw SnapshotCache.new wIssues wA wB wAFull wBFull rfl
    (List.mem_cons_self _ _)
    (List.mem_cons_of_mem _ (List.mem_cons_self _ _))
    rfl rfl).1

/-- A pure per-id fetch, standing for `self.snapshot_cache.get_issue(id)` in
the query pipeline.  Within one snapshot the cache serves every id a value
that agrees with the (deterministic) gateway regardless of call order
(`get_issue_fst_of_consistent`), so the pipeline's reads are a pure
function of the id. -/
abbrev Fetch := String → Except String Issue

/-- `BeadUiApp::get_blockers_count`: the number of the issue's dependencies
whose status is not "closed", from the full detail; 0 when the fetch
fails. -/
def get_blockers_count (fetch : Fetch) (issue_id : String) : Nat :=
  match fetch issue_id with
  | Except.ok full_issue =>
    (full_issue.dependencies.filter (fun dep => decide (dep.status ≠ "closed"))).length
  | Except.error _ => 0

/-- `BeadUiApp::get_dependents_count`:
`self.dependents_map.get(issue_id).map(|v| v.len()).unwrap_or(0)`. -/
def get_dependents_count (dm : DepMap) (issue_id : String) : Nat :=
  ((lookupA dm issue_id).map List.length).getD 0

/-- `BeadUiApp::get_readiness`: the match on `issue.status`. -/
def get_readiness (fetch : Fetch) (issue : Issue) : String :=
  if issue.status = "closed" then "closed"
  else if issue.status = "in_progress" then "in_progress"
  else if get_blockers_count fetch issue.id > 0 then "blocked"
  else "ready"

/-- C3: readiness is a pure function of an issue's status and its blockers'
statuses.  When the full detail is available: status "closed" yields
"closed" regardless of blockers, "in_progress" yields "in_progress", and
any other status yields "blocked" exactly when the number of dependencies
whose status is not "closed" is positive, "ready" when that count is
zero (that count being what `get_blockers_count` returns). -/
theorem get_readiness_cases (fetch : Fetch) (issue full : Issue)
    (hfetch : fetch issue.id = Except.ok full) :
    get_blockers_count fetch issue.id =
        (full.dependencies.filter (fun dep => decide (dep.status ≠ "closed"))).length
    ∧ (issue.status = "closed" → get_readiness fetch issue = "closed")
    ∧ (issue.status = "in_progress" → get_readiness fetch issue = "in_progress")
    ∧ (issue.status ≠ "closed" → issue.status ≠ "in_progress" →
        ((0 < (full.dependencies.filter (fun dep => decide (dep.status ≠ "closed"))).length →
            get_readiness fetch issue = "blocked")
          ∧ ((full.dependencies.filter (fun dep => decide (dep.status ≠ "closed"))).length = 0 →
            get_readiness fetch issue = "ready"))) := by
  have hcount : get_blockers_count fetch issue.id =
      (full.dependencies.filter (fun dep => decide (dep.status ≠ "closed"))).length := by
    simp [get_blockers_count, hfetch]
  refine ⟨hcount, ?_, ?_, ?_⟩
  · intro h
    simp [get_readiness, h]
  · intro h
    by_cases hc : issue.status = "closed"
    · rw [hc] at h
      exact absurd h (by decide)
    · simp [get_readiness, hc, h]
  · intro h1 h2
    constructor
    · intro hpos
      have : get_blockers_count fetch issue.id > 0 := by rw [hcount]; exact hpos
      simp [get_readiness, h1, h2, this]
    · intro hzero
      have : ¬get_blockers_count fetch issue.id > 0 := by
        rw [hcount, hzero]
        exact Nat.lt_irrefl 0
      simp [get_readiness, h1, h2, this]

def wFetch : Fetch := fun id =>
  if id = "a" then Except.ok wAFull
  else if id = "b" then Except.ok wBFull
  else Except.error "bd failed"

theorem get_readiness_cases_witness :
    get_blockers_count wFetch wB.id =
        (wBFull.dependencies.filter (fun dep => decide (dep.status ≠ "closed"))).length
    ∧ (wB.status = "closed" → get_readiness wFetch wB = "closed")
    ∧ (wB.status = "in_progress" → get_readiness wFetch wB = "in_progress")
    ∧ (wB.status ≠ "closed" → wB.status ≠ "in_progress" →
        ((0 < (wBFull.dependencies.filter (fun dep => decide (dep.status ≠ "closed"))).length →
            get_readiness wFetch wB = "blocked")
          ∧ ((wBFull.dependencies.filter (fun dep => decide (dep.status ≠ "closed"))).length = 0 →
            get_readiness wFetch wB = "ready"))) :=
  get_readiness_cases wFetch wB wBFull rfl

/-- C10: when the full-detail fetch of an issue fails, `get_blockers_count`
returns 0, so an issue whose status is neither "closed" nor "in_progress"
is assigned readiness "ready" and a blocker count of 0 — at the query
surface a fetch failure is indistinguishable from the issue having no
active blockers. -/
theorem fetch_failure_reads_ready (fetch : Fetch) (issue : Issue) (e : String)
    (hfetch : fetch issue.id = Except.error e)
    (h1 : issue.status ≠ "closed") (h2 : issue.status ≠ "in_progress") :
    get_blockers_count fetch issue.id = 0 ∧ get_readiness fetch issue = "ready" := by
  have hcount : get_blockers_count fetch issue.id = 0 := by
    simp [get_blockers_count, hfetch]
  refine ⟨hcount, ?_⟩
  simp [get_readiness, h1, h2, hcount]

def wFailFetch : Fetch := fun _ => Except.error "bd failed"

theorem fetch_failure_reads_ready_witness :
    get_blockers_count wFailFetch wB.id = 0 ∧ get_readiness wFailFetch wB = "ready" :=
  fetch_failure_reads_ready wFailFetch wB "bd failed" rfl (by decide) (by decide)

/-- Rust `str::to_lowercase()`, embedded as per-character lowercasing. -/
def lower (s : String) : String := ⟨s.data.map Char.toLower⟩

/-- Rust `str::contains(pat)`: `pat` occurs as a contiguous substring of the
haystack. -/
def containsSubstr (hay pat : String) : Bool := decide (pat.data <:+: hay.data)

theorem toLower_digitChar (m : Nat) (h : m < 10) :
    (Nat.digitChar m).toLower = Nat.digitChar m := by
  interval_cases m <;> decide

theorem toDigitsCore_toLower :
    ∀ (fuel n : Nat) (acc : List Char), (∀ c ∈ acc, c.toLower = c) →
      ∀ c ∈ Nat.toDigitsCore 10 fuel n acc, c.toLower = c := by
  intro fuel
  induction fuel with
  | zero =>
    intro n acc hacc c hc
    exact hacc c hc
  | succ fuel ih =>
    intro n acc hacc c hc
    have hd : (Nat.digitChar (n % 10)).toLower = Nat.digitChar (n % 10) :=
      toLower_digitChar _ (Nat.mod_lt _ (by decide))
    have hacc2 : ∀ c2 ∈ Nat.digitChar (n % 10) :: acc, c2.toLower = c2 := by
      intro c2 hc2
      rcases List.mem_cons.mp hc2 with hc2 | hc2
      · rw [hc2]; exact hd
      · exact hacc c2 hc2
    simp only [Nat.toDigitsCore] at hc
    by_cases h0 : n / 10 = 0
    · rw [if_pos h0] at hc
      exact hacc2 c hc
    · rw [if_neg h0] at hc
      exact ih _ _ hacc2 c hc

theorem map_toLower_eq_self {l : List Char} (h : ∀ c ∈ l, c.toLower = c) :
    l.map Char.toLower = l := by
  induction l with
  | nil => rfl
  | cons c rest ih =>
    simp only [List.map_cons, List.cons.injEq]
    exact ⟨h c (List.mem_cons_self c rest), ih fun c2 hc2 => h c2 (List.mem_cons_of_mem c hc2)⟩

/-- The decimal rendering of a natural number contains no uppercase letter,
so lowercasing it is the identity. -/
theorem lower_toString_nat (n : Nat) : lower (toString n) = toString n := by
  show lower (Nat.repr n) = Nat.repr n
  unfold Nat.repr List.asString lower
  exact congrArg String.mk (map_toLower_eq_self
    (toDigitsCore_toLower (n + 1) n [] (by intro c hc; cases hc)))

/-- The text predicate of `BeadUiApp::filtered_and_sorted_issues` (lines
710-722): the filter string is already lowercased by the caller; each
textual field is lowercased before the substring test, the count fields
are matched on their decimal string forms, and an absent assignee
contributes no match. -/
def text_match (filter : String) (issue : Issue) (readiness : String)
    (blockers_count dependents_count : Nat) : Bool :=
  containsSubstr (lower issue.id) filter
  || containsSubstr (lower issue.title) filter
  || containsSubstr (lower issue.description) filter
  || containsSubstr (lower issue.status) filter
  || containsSubstr (lower issue.issue_type) filter
  || ((issue.assignee.map (fun a => containsSubstr (lower a) filter)).getD false)
  || containsSubstr (lower readiness) filter
  || containsSubstr (toString blockers_count) filter
  || containsSubstr (toString dependents_count) filter

/-- The spec's case-insensitive substring relation: the needle, compared
case-insensitively, occurs in the haystack. -/
def ci_substring (needle hay : String) : Prop :=
  (lower needle).data <:+: (lower hay).data

/-- Modelled from the spec's words, for comparison with `text_match`: the
filter text, compared case-insensitively, is a substring of at least one
of id, title, description, status, type, assignee (an absent assignee
contributes no match), computed readiness, or the decimal string form of
the blocker or dependent count. -/
def spec_text_match (filter_text : String) (issue : Issue) (readiness : String)
    (blockers_count dependents_count : Nat) : Prop :=
  ci_substring filter_text issue.id ∨ ci_substring filter_text issue.title
  ∨ ci_substring filter_text issue.description ∨ ci_substring filter_text issue.status
  ∨ ci_substring filter_text issue.issue_type
  ∨ (∃ a, issue.assignee = some a ∧ ci_substring filter_text a)
  ∨ ci_substring filter_text readiness
  ∨ ci_substring filter_text (toString blockers_count)
  ∨ ci_substring filter_text (toString dependents_count)

/-- C4: with a non-empty free-text filter, an issue passes the text
predicate iff the filter text, compared case-insensitively, is a substring
of at least one of: id, title, description, status, type, assignee (an
absent assignee contributes no match), computed readiness, or the decimal
string form of its blocker count or dependent count.  (`text_match`
receives the filter already lowercased, as the caller lowercases it
once.) -/
theorem text_match_iff (filter_text : String) (issue : Issue) (readiness : String)
    (blockers_count dependents_count : Nat) (hne : filter_text ≠ "") :
    (text_match (lower filter_text) issue readiness blockers_count dependents_count = true ↔
      spec_text_match filter_text issue readiness blockers_count dependents_count) := by
  rcases ha : issue.assignee with _ | a <;>
    simp [text_match, spec_text_match, ci_substring, containsSubstr, lower_toString_nat, ha,
      or_assoc]

theorem text_match_iff_witness :
    ("b" : String) ≠ "" ∧
      (text_match (lower "b") wB "ready" 0 1 = true ↔
        spec_text_match "b" wB "ready" 0 1) :=
  ⟨by decide, text_match_iff "b" wB "ready" 0 1 (by decide)⟩

/-- The sortable/filterable columns of src/main.rs. -/
inductive SortColumn : Type where
  | Id | Directory | Title | Status | Priority | «Type» | Assignee | Blockers | Dependents
deriving DecidableEq

/-- `ColumnFilter`: the set of excluded string values for one column. -/
structure ColumnFilter where
  excluded_values : List String

/-- `ColumnFilter::new_with_excluded`. -/
def ColumnFilter.new_with_excluded (excluded : List String) : ColumnFilter :=
  ⟨excluded⟩

/-- `ColumnFilter::is_filtered`: exact membership of the projected display
value in the excluded set. -/
def ColumnFilter.is_filtered (f : ColumnFilter) (value : String) : Bool :=
  f.excluded_values.contains value

/-- The pre-computed display values of one row (`struct IssueDisplay`). -/
structure IssueDisplay where
  original_idx : Nat
  issue : Issue
  readiness : String
  blockers_count : Nat
  dependents_count : Nat

/-- The per-column projected display value used by the column filters in
`filtered_and_sorted_issues` (lines 730-740), reading the pre-computed
readiness and counts. -/
def display_column_value (d : IssueDisplay) (column : SortColumn) : String :=
  match column with
  | SortColumn.Id => d.issue.id
  | SortColumn.Directory => d.issue.source_directory
  | SortColumn.Title => d.issue.title
  | SortColumn.Status => d.readiness
  | SortColumn.Priority => "P" ++ toString d.issue.priority
  | SortColumn.«Type» => d.issue.issue_type
  | SortColumn.Assignee => d.issue.assignee.getD "-"
  | SortColumn.Blockers => toString d.blockers_count
  | SortColumn.Dependents => toString d.dependents_count

/-- The column-filter loop of `filtered_and_sorted_issues` (lines 728-744):
the row survives iff no column filter excludes its projected value. -/
def columns_pass (column_filters : List (SortColumn × ColumnFilter)) (d : IssueDisplay) : Bool :=
  column_filters.all (fun cf => !(cf.2.is_filtered (display_column_value d cf.1)))

/-- The filtering phase of `BeadUiApp::filtered_and_sorted_issues`: lowercase
the filter text once, pre-compute readiness and the two counts per issue,
drop rows failing the text predicate (only when the filter is non-empty)
or any column filter, and keep the original index. -/
def filtered_issues (filter_text : String) (column_filters : List (SortColumn × ColumnFilter))
    (fetch : Fetch) (dm : DepMap) (issues : List Issue) : List IssueDisplay :=
  let filter := lower filter_text
  issues.enum.filterMap (fun p =>
    let idx := p.1
    let issue := p.2
    let readiness := get_readiness fetch issue
    let blockers_count := get_blockers_count fetch issue.id
    let dependents_count := get_dependents_count dm issue.id
    if !filter.isEmpty && !(text_match filter issue readiness blockers_count dependents_count)
    then none
    else if !(columns_pass column_filters ⟨idx, issue, readiness, blockers_count, dependents_count⟩)
    then none
    else some ⟨idx, issue, readiness, blockers_count, dependents_count⟩)

theorem of_mem_filtered_issues {filter_text : String}
    {column_filters : List (SortColumn × ColumnFilter)} {fetch : Fetch} {dm : DepMap}
    {issues : List Issue} {d : IssueDisplay}
    (h : d ∈ filtered_issues filter_text column_filters fetch dm issues) :
    issues[d.original_idx]? = some d.issue
    ∧ d.readiness = get_readiness fetch d.issue
    ∧ d.blockers_count = get_blockers_count fetch d.issue.id
    ∧ d.dependents_count = get_dependents_count dm d.issue.id
    ∧ columns_pass column_filters d = true := by
  obtain ⟨p, hp, hfp⟩ := List.mem_filterMap.mp h
  obtain ⟨idx, issue⟩ := p
  have hidx : issues[idx]? = some issue := List.mk_mem_enum_iff_getElem?.mp hp
  simp only at hfp
  by_cases h1 : (!(lower filter_text).isEmpty
      && !(text_match (lower filter_text) issue (get_readiness fetch issue)
            (get_blockers_count fetch issue.id) (get_dependents_count dm issue.id))) = true
  · rw [if_pos h1] at hfp
    cases hfp
  · rw [if_neg h1] at hfp
    by_cases h2 : (!(columns_pass column_filters
        ⟨idx, issue, get_readiness fetch issue, get_blockers_count fetch issue.id,
          get_dependents_count dm issue.id⟩)) = true
    · rw [if_pos h2] at hfp
      cases hfp
    · rw [if_neg h2] at hfp
      injection hfp with hd
      subst hd
      refine ⟨hidx, rfl, rfl, rfl, ?_⟩
      rw [Bool.not_eq_true, Bool.not_eq_false'] at h2
      exact h2

/-- C5: a row fails the column filters iff some column's non-empty exclusion
set contains its projected display value for that column — exclusion is
disjunctive within one column's set and conjunctive across columns (the
row must pass every column's filter) — and every row of the query result
passes every column filter.  A column with an empty exclusion set excludes
nothing, so only columns with non-empty sets matter. -/
theorem columns_pass_iff (column_filters : List (SortColumn × ColumnFilter)) (d : IssueDisplay) :
    (columns_pass column_filters d = false ↔
      ∃ col f, (col, f) ∈ column_filters ∧ display_column_value d col ∈ f.excluded_values)
    ∧ (columns_pass column_filters d = true ↔
      ∀ col f, (col, f) ∈ column_filters → display_column_value d col ∉ f.excluded_values)
    ∧ (∀ filter_text fetch dm issues,
        (filtered_issues filter_text column_filters fetch dm issues).all
          (fun d2 => columns_pass column_filters d2) = true) := by
  have htrue : columns_pass column_filters d = true ↔
      ∀ col f, (col, f) ∈ column_filters → display_column_value d col ∉ f.excluded_values := by
    simp only [columns_pass, List.all_eq_true, ColumnFilter.is_filtered, Bool.not_eq_true',
      List.contains, List.elem_eq_mem, decide_eq_false_iff_not]
    constructor
    · intro h col f hmem
      exact h (col, f) hmem
    · intro h cf hmem
      exact h cf.1 cf.2 hmem
  refine ⟨?_, htrue, ?_⟩
  · rw [← Bool.not_eq_true, htrue]
    push_neg
    rfl
  · intro filter_text fetch dm issues
    rw [List.all_eq_true]
    intro d2 hd2
    exact (of_mem_filtered_issues hd2).2.2.2.2

/-- Rust's `Ord::cmp` on a totally ordered type. -/
def ordCompare {α : Type} [LinearOrder α] (a b : α) : Ordering :=
  if a < b then Ordering.lt else if a = b then Ordering.eq else Ordering.gt

theorem ordCompare_ne_gt_iff {α : Type} [LinearOrder α] (a b : α) :
    (ordCompare a b ≠ Ordering.gt) ↔ a ≤ b := by
  unfold ordCompare
  split_ifs with h1 h2
  · exact iff_of_true (by decide) h1.le
  · exact iff_of_true (by decide) (le_of_eq h2)
  · have hba : b < a := lt_of_le_of_ne (le_of_not_lt h1) fun hh => h2 hh.symm
    exact iff_of_false (by simp) (not_le.mpr hba)

theorem ordCompare_ne_lt_iff {α : Type} [LinearOrder α] (a b : α) :
    (ordCompare a b ≠ Ordering.lt) ↔ b ≤ a := by
  unfold ordCompare
  split_ifs with h1 h2
  · exact iff_of_false (by simp) (not_le.mpr h1)
  · exact iff_of_true (by decide) (le_of_eq h2.symm)
  · have hba : b < a := lt_of_le_of_ne (le_of_not_lt h1) fun hh => h2 hh.symm
    exact iff_of_true (by decide) hba.le

theorem Ordering_swap_ne_gt (o : Ordering) :
    (o.swap ≠ Ordering.gt) ↔ (o ≠ Ordering.lt) := by
  cases o <;> simp [Ordering.swap]

/-- The comparator of `filtered_and_sorted_issues` (lines 756-772): the
active sort column's natural ordering on the pre-computed display row
(lexical for the string columns, numeric for priority and the counts; a
missing assignee compares as the empty string). -/
def compare_displays (sort_by : SortColumn) (a b : IssueDisplay) : Ordering :=
  match sort_by with
  | SortColumn.Id => ordCompare a.issue.id b.issue.id
  | SortColumn.Directory => ordCompare a.issue.source_directory b.issue.source_directory
  | SortColumn.Title => ordCompare a.issue.title b.issue.title
  | SortColumn.Status => ordCompare a.readiness b.readiness
  | SortColumn.Priority => ordCompare a.issue.priority b.issue.priority
  | SortColumn.«Type» => ordCompare a.issue.issue_type b.issue.issue_type
  | SortColumn.Assignee => ordCompare (a.issue.assignee.getD "") (b.issue.assignee.getD "")
  | SortColumn.Blockers => ordCompare a.blockers_count b.blockers_count
  | SortColumn.Dependents => ordCompare a.dependents_count b.dependents_count

/-- The effective not-after relation the sort establishes: the comparator,
reversed when descending (`cmp.reverse()`), does not return Greater. -/
def sort_le (sort_by : SortColumn) (sort_ascending : Bool) (a b : IssueDisplay) : Bool :=
  decide ((if sort_ascending then compare_displays sort_by a b
      else (compare_displays sort_by a b).swap) ≠ Ordering.gt)

/-- `BeadUiApp::filtered_and_sorted_issues`: filter, then stable-sort by the
single active sort column and direction (`Vec::sort_by` is a stable sort;
`List.mergeSort` is its embedding). -/
def filtered_and_sorted_issues (filter_text : String)
    (column_filters : List (SortColumn × ColumnFilter)) (sort_by : SortColumn)
    (sort_ascending : Bool) (fetch : Fetch) (dm : DepMap) (issues : List Issue) :
    List IssueDisplay :=
  (filtered_issues filter_text column_filters fetch dm issues).mergeSort
    (sort_le sort_by sort_ascending)

/-- The sort-header click handler of `show_list_view` (lines 953-960):
clicking the active column toggles the direction, clicking another column
selects it with ascending direction. -/
def handle_sort_click (sort_by : SortColumn) (sort_ascending : Bool) (clicked : SortColumn) :
    SortColumn × Bool :=
  if sort_by = clicked then (sort_by, !sort_ascending) else (clicked, true)

/-- The active column's natural ordering, as the spec states it. -/
def column_le (column : SortColumn) (a b : IssueDisplay) : Prop :=
  match column with
  | SortColumn.Id => a.issue.id ≤ b.issue.id
  | SortColumn.Directory => a.issue.source_directory ≤ b.issue.source_directory
  | SortColumn.Title => a.issue.title ≤ b.issue.title
  | SortColumn.Status => a.readiness ≤ b.readiness
  | SortColumn.Priority => a.issue.priority ≤ b.issue.priority
  | SortColumn.«Type» => a.issue.issue_type ≤ b.issue.issue_type
  | SortColumn.Assignee => a.issue.assignee.getD "" ≤ b.issue.assignee.getD ""
  | SortColumn.Blockers => a.blockers_count ≤ b.blockers_count
  | SortColumn.Dependents => a.dependents_count ≤ b.dependents_count

/-- Modelled from the spec's words: the sort order — the column's natural
ordering, reversed when the direction is descending. -/
def spec_sort_rel (column : SortColumn) (asc : Bool) (a b : IssueDisplay) : Prop :=
  if asc then column_le column a b else column_le column b a

theorem sort_le_iff (column : SortColumn) (asc : Bool) (a b : IssueDisplay) :
    sort_le column asc a b = true ↔ spec_sort_rel column asc a b := by
  cases asc with
  | false =>
    show decide ((compare_displays column a b).swap ≠ Ordering.gt) = true ↔ column_le column b a
    rw [decide_eq_true_eq, Ordering_swap_ne_gt]
    cases column <;> exact ordCompare_ne_lt_iff _ _
  | true =>
    show decide (compare_displays column a b ≠ Ordering.gt) = true ↔ column_le column a b
    rw [decide_eq_true_eq]
    cases column <;> exact ordCompare_ne_gt_iff _ _

theorem column_le_trans (column : SortColumn) :
    ∀ a b c, column_le column a b → column_le column b c → column_le column a c := by
  cases column <;> (intro a b c h1 h2; exact le_trans h1 h2)

theorem column_le_total (column : SortColumn) :
    ∀ a b, column_le column a b ∨ column_le column b a := by
  cases column <;> (intro a b; exact le_total _ _)

theorem sort_le_trans (column : SortColumn) (asc : Bool) :
    ∀ a b c, sort_le column asc a b → sort_le column asc b c → sort_le column asc a c := by
  intro a b c h1 h2
  rw [sort_le_iff] at h1 h2
  rw [sort_le_iff]
  cases asc
  · exact column_le_trans column _ _ _ h2 h1
  · exact column_le_trans column _ _ _ h1 h2

theorem sort_le_total (column : SortColumn) (asc : Bool) :
    ∀ a b, sort_le column asc a b || sort_le column asc b a := by
  intro a b
  rw [Bool.or_eq_true, sort_le_iff, sort_le_iff]
  cases asc
  · exact column_le_total column b a
  · exact column_le_total column a b

/-- C6: the retained rows are sorted by the single active sort column with
that column's natural ordering, reversed when descending: the output is a
permutation of the retained rows, consecutive rows respect the (possibly
reversed) ordering, and ties are left in input order (stability); clicking
the already-active sort column toggles the direction, and clicking a
different column makes it the sort column with direction reset to
ascending. -/
theorem filtered_and_sorted_sorts (filter_text : String)
    (column_filters : List (SortColumn × ColumnFilter)) (sort_by : SortColumn)
    (sort_ascending : Bool) (fetch : Fetch) (dm : DepMap) (issues : List Issue) :
    (filtered_and_sorted_issues filter_text column_filters sort_by sort_ascending fetch dm
        issues).Perm (filtered_issues filter_text column_filters fetch dm issues)
    ∧ (filtered_and_sorted_issues filter_text column_filters sort_by sort_ascending fetch dm
        issues).Pairwise (spec_sort_rel sort_by sort_ascending)
    ∧ (∀ a b, column_le sort_by a b → column_le sort_by b a →
        [a, b].Sublist (filtered_issues filter_text column_filters fetch dm issues) →
        [a, b].Sublist (filtered_and_sorted_issues filter_text column_filters sort_by
          sort_ascending fetch dm issues))
    ∧ handle_sort_click sort_by sort_ascending sort_by = (sort_by, !sort_ascending)
    ∧ (∀ clicked, clicked ≠ sort_by →
        handle_sort_click sort_by sort_ascending clicked = (clicked, true)) := by
  refine ⟨List.mergeSort_perm _ _, ?_, ?_, ?_, ?_⟩
  · have hs := List.sorted_mergeSort
      (sort_le_trans sort_by sort_ascending) (sort_le_total sort_by sort_ascending)
      (filtered_issues filter_text column_filters fetch dm issues)
    exact hs.imp fun h => (sort_le_iff _ _ _ _).mp h
  · intro a b hab hba hsub
    have hle : sort_le sort_by sort_ascending a b = true := by
      rw [sort_le_iff]
      cases sort_ascending
      · exact hba
      · exact hab
    exact List.pair_sublist_mergeSort (sort_le_trans sort_by sort_ascending)
      (sort_le_total sort_by sort_ascending) hle hsub
  · simp [handle_sort_click]
  · intro clicked hne
    unfold handle_sort_click
    rw [if_neg (fun hh : sort_by = clicked => hne hh.symm)]

/-- The initial column filters of `BeadUiApp::default` (lines 420-425): the
Status column starts with exactly the excluded value "closed". -/
def default_column_filters : List (SortColumn × ColumnFilter) :=
  [(SortColumn.Status, ColumnFilter.new_with_excluded ["closed"])]

/-- C9: in the initial application state, the Status column filter contains
exactly the excluded value "closed", so before any user interaction (empty
filter text, any sort settings) every issue whose computed readiness is
"closed" produces no row of the filtered-and-sorted view, while the
aggregated issue list itself is left untouched by the query. -/
theorem default_filter_hides_closed :
    default_column_filters = [(SortColumn.Status, ColumnFilter.new_with_excluded ["closed"])]
    ∧ (∀ (fetch : Fetch) (dm : DepMap) (issues : List Issue) (sort_by : SortColumn)
        (sort_ascending : Bool) (i : Nat) (issue : Issue),
        issues[i]? = some issue → get_readiness fetch issue = "closed" →
        (filtered_and_sorted_issues "" default_column_filters sort_by sort_ascending fetch dm
            issues).all (fun d => d.original_idx != i) = true) := by
  refine ⟨rfl, ?_⟩
  intro fetch dm issues sort_by sort_ascending i issue hget hclosed
  rw [List.all_eq_true]
  intro d hd
  have hd2 : d ∈ filtered_issues "" default_column_filters fetch dm issues :=
    List.mem_mergeSort.mp hd
  obtain ⟨hidx, hread, _, _, hpass⟩ := of_mem_filtered_issues hd2
  have hne : d.readiness ≠ "closed" := by
    simp only [columns_pass, default_column_filters, List.all_cons, List.all_nil,
      Bool.and_true, ColumnFilter.is_filtered, ColumnFilter.new_with_excluded,
      display_column_value, List.contains, List.elem_eq_mem, Bool.not_eq_true',
      decide_eq_false_iff_not] at hpass
    intro hc
    exact hpass (by rw [hc]; exact List.mem_cons_self _ _)
  rw [bne_iff_ne]
  intro hcontra
  rw [hcontra, hget] at hidx
  injection hidx with heq
  apply hne
  rw [hread, ← heq]
  exact hclosed

/-- The external gateway behind `BdClient::list_issues`' subprocess call:
list the issues stored at a directory. -/
abbrev ListGateway := DirPath → Except String (List Issue)

/-- `DirectoryConfig` of src/main.rs. -/
structure DirectoryConfig where
  path : DirPath
  visible : Bool
  display_name : String

/-- `BdClient::list_issues`: run the gateway's list operation for a
directory and stamp every returned issue's `source_directory`. -/
def list_issues (gw : ListGateway) (db_path : DirPath) (source_directory : String) :
    Except String (List Issue) :=
  match gw db_path with
  | Except.ok issues =>
    Except.ok (issues.map (fun issue => issue.withSourceDirectory source_directory))
  | Except.error e => Except.error e

/-- The per-directory source name `list_issues_from_all` computes: the
display name, or the path's base name when the display name is empty. -/
def source_name_of (dir_config : DirectoryConfig) : String :=
  if dir_config.display_name.isEmpty then dir_config.path.getLast?.getD ""
  else dir_config.display_name

/-- `BdClient::list_issues_from_all`: iterate the registered directories in
order, skip invisible ones, silently skip those whose list call fails, and
concatenate the per-directory results. -/
def list_issues_from_all (gw : ListGateway) : List DirectoryConfig → List Issue
  | [] => []
  | dir_config :: rest =>
    if !dir_config.visible then list_issues_from_all gw rest
    else
      match list_issues gw dir_config.path (source_name_of dir_config) with
      | Except.ok issues => issues ++ list_issues_from_all gw rest
      | Except.error _ => list_issues_from_all gw rest

/-- Modelled from the spec's words, for comparison with
`list_issues_from_all`: the visible directories in registration order,
each contributing its successfully listed issues stamped with its display
name (or base name), failures contributing nothing. -/
def spec_aggregate (gw : ListGateway) (directories : List DirectoryConfig) : List Issue :=
  (directories.filter (fun d => d.visible)).flatMap (fun d =>
    match gw d.path with
    | Except.ok issues => issues.map (fun issue => issue.withSourceDirectory (source_name_of d))
    | Except.error _ => [])

/-- C8: aggregation processes exactly the visible directories in
registration order, silently skips a directory whose list call fails (its
failure is swallowed — the result type carries no error), stamps each
issue of a successful directory with that directory's display name (or the
path's base name when the display name is empty), and concatenates the
per-directory results in registration order; and stamping indeed sets the
`source_directory` field to the computed source name. -/
theorem list_issues_from_all_eq_spec (gw : ListGateway) (directories : List DirectoryConfig) :
    list_issues_from_all gw directories = spec_aggregate gw directories
    ∧ (∀ (issue : Issue) (s : String), (issue.withSourceDirectory s).source_directory = s) := by
  constructor
  · induction directories with
    | nil => rfl
    | cons d rest ih =>
      by_cases hv : d.visible
      · cases hg : gw d.path with
        | ok issues =>
          simp [list_issues_from_all, spec_aggregate, list_issues, hv, hg, List.filter_cons,
            ih, List.flatMap_cons]
        | error e =>
          simp [list_issues_from_all, spec_aggregate, list_issues, hv, hg, List.filter_cons,
            ih, List.flatMap_cons]
      · simp [list_issues_from_all, spec_aggregate, hv, List.filter_cons, ih]
  · intro issue s
    cases issue
    rfl

/-- The external gateway behind `BdClient::update_issue`:
`update(id, field, value)`. -/
abbrev UpdateGateway := String → String → String → Except String Unit

/-- One `BdClient::update_issue` call of `save_issue_changes`: the call is
recorded, and on failure `"field: detail"` is pushed onto the error
list. -/
def save_update_step (upd : UpdateGateway) (issue_id : String)
    (acc : List (String × String) × List String) (field value : String) :
    List (String × String) × List String :=
  (acc.1 ++ [(field, value)],
    match upd issue_id field value with
    | Except.ok _ => acc.2
    | Except.error e => acc.2 ++ [field ++ ": " ++ e])

/-- The body of `BeadUiApp::save_issue_changes` (lines 1771-1801): update
title, status, priority (as string), then assignee and notes when present,
in that fixed order, never aborting; the first component is the list of
gateway calls performed, the second the collected errors. -/
def save_issue_changes_trace (upd : UpdateGateway) (issue : Issue) :
    List (String × String) × List String :=
  let acc0 : List (String × String) × List String := ([], [])
  let acc1 := save_update_step upd issue.id acc0 "title" issue.title
  let acc2 := save_update_step upd issue.id acc1 "status" issue.status
  let acc3 := save_update_step upd issue.id acc2 "priority" (toString issue.priority)
  let acc4 := match issue.assignee with
    | some assignee => save_update_step upd issue.id acc3 "assignee" assignee
    | none => acc3
  let acc5 := match issue.notes with
    | some notes_value => save_update_step upd issue.id acc4 "notes" notes_value
    | none => acc4
  acc5

/-- The state changes `save_issue_changes` applies after the update calls
(lines 1803-1812): on success clear the error message and the modified
flag, drop the cached detail (`current_issue = None`) and trigger a full
refresh; on failure report one aggregated message and change nothing
else. -/
structure SaveOutcome where
  error_message : Option String
  edit_modified : Bool
  current_issue_dropped : Bool
  refreshed : Bool

def save_issue_changes (upd : UpdateGateway) (issue : Issue) (edit_modified : Bool) :
    SaveOutcome :=
  let errors := (save_issue_changes_trace upd issue).2
  if errors.isEmpty then
    { error_message := none, edit_modified := false, current_issue_dropped := true,
      refreshed := true }
  else
    { error_message := some ("Failed to save: " ++ String.intercalate ", " errors),
      edit_modified := edit_modified, current_issue_dropped := false, refreshed := false }

/-- The error entry one gateway call contributes, if any. -/
def errOf (upd : UpdateGateway) (issue_id : String) (call : String × String) : Option String :=
  match upd issue_id call.1 call.2 with
  | Except.ok _ => none
  | Except.error e => some (call.1 ++ ": " ++ e)

theorem save_update_step_invariant (upd : UpdateGateway) (issue_id : String)
    (acc : List (String × String) × List String) (field value : String)
    (h : acc.2 = acc.1.filterMap (errOf upd issue_id)) :
    (save_update_step upd issue_id acc field value).2 =
      (save_update_step upd issue_id acc field value).1.filterMap (errOf upd issue_id) := by
  cases hu : upd issue_id field value <;>
    simp [save_update_step, List.filterMap_append, h, errOf, hu]

/-- Modelled from the claim's words: the logical fields on which the edited
issue differs from the original. -/
def changed_fields (original edited : Issue) : List String :=
  (if original.title ≠ edited.title then ["title"] else [])
  ++ (if original.status ≠ edited.status then ["status"] else [])
  ++ (if original.priority ≠ edited.priority then ["priority"] else [])
  ++ (if original.assignee ≠ edited.assignee then ["assignee"] else [])
  ++ (if original.notes ≠ edited.notes then ["notes"] else [])

def cOriginal : Issue := Issue.mk "x" "Old title" "" "open" 1 "task" none none "" "" [] ""

def cEdited : Issue := Issue.mk "x" "New title" "" "open" 1 "task" none none "" "" [] ""

def cUpdOk : UpdateGateway := fun _ _ _ => Except.ok ()

/-- C7 counterexample: saving an issue whose only changed logical field is
the title still issues update calls for title, status and priority — the
calls are per savable field, not per changed field. -/
theorem save_per_changed_field_counterexample :
    changed_fields cOriginal cEdited = ["title"]
    ∧ (save_issue_changes_trace cUpdOk cEdited).1.map Prod.fst = ["title", "status", "priority"]
    ∧ (save_issue_changes_trace cUpdOk cEdited).1.map Prod.fst ≠ ["title"] :=
  ⟨rfl, rfl, by decide⟩

/-- C7 (amended): saving issues one gateway update call per savable logical
field — title, status, priority as string, assignee if present, notes if
present, in that fixed order, regardless of whether the field changed —
attempting every field without aborting on the first failure (the list of
calls performed does not depend on any call's outcome); the collected
errors are exactly the failed calls' "field: detail" entries in call
order; if no update fails, the modified flag is cleared, the cached detail
is dropped, and a full refresh is triggered; if any update fails, the sole
effect is one aggregated message joining the failures, the modified flag
keeps its previous value, the detail is not dropped, and no refresh
occurs. -/
theorem save_issue_changes_spec (upd : UpdateGateway) (issue : Issue) (edit_modified : Bool) :
    ((save_issue_changes_trace upd issue).1 =
      [("title", issue.title), ("status", issue.status), ("priority", toString issue.priority)]
        ++ (match issue.assignee with | some assignee => [("assignee", assignee)] | none => [])
        ++ (match issue.notes with | some notes_value => [("notes", notes_value)] | none => []))
    ∧ ((save_issue_changes_trace upd issue).2 =
        (save_issue_changes_trace upd issue).1.filterMap (errOf upd issue.id))
    ∧ ((save_issue_changes_trace upd issue).2 = [] →
        save_issue_changes upd issue edit_modified =
          { error_message := none, edit_modified := false, current_issue_dropped := true,
            refreshed := true })
    ∧ (∀ err rest, (save_issue_changes_trace upd issue).2 = err :: rest →
        save_issue_changes upd issue edit_modified =
          { error_message := some ("Failed to save: " ++
              String.intercalate ", " (save_issue_changes_trace upd issue).2),
            edit_modified := edit_modified, current_issue_dropped := false,
            refreshed := false }) := by
  refine ⟨?_, ?_, ?_, ?_⟩
  · rcases ha : issue.assignee with _ | assignee <;> rcases hn : issue.notes with _ | notes_value <;>
      simp [save_issue_changes_trace, save_update_step, ha, hn]
  · rcases ha : issue.assignee with _ | assignee <;> rcases hn : issue.notes with _ | notes_value <;>
      simp only [save_issue_changes_trace, ha, hn] <;>
      (repeat apply save_update_step_invariant) <;> rfl
  · intro h
    simp [save_issue_changes, h]
  · intro err rest h
    simp [save_issue_changes, h]
